import Mathlib

/-!
# Verification of the SGNL-V2 market-microstructure engine

Shallow embedding of the core of the SGNL-V2 engine (multi-venue data hub,
scorer, entry/exit logic, SQLite journal) in Lean 4, together with proofs
of the behavioural claims made by its specification.

Conventions used throughout:

* Python floats are modelled as rationals (`ℚ`); `None` becomes `Option`.
* SQL tables are modelled as lists of row structures; an `INSERT` conses or
  appends a row, an `UPDATE ... WHERE` maps a conditional transformer over
  the list, and a `SELECT ... ORDER BY x DESC LIMIT 1` picks the row with
  maximal `x` via a fold.
* Python strings handled character-wise (symbol translation) are modelled
  as lists of Unicode code points (`List Nat`), so that `str.replace`,
  `str.lower` and `str.upper` can be given executable models.
* Wall-clock reads (`time.time()`) become an explicit `now : ℚ` argument.
-/

/-! ## Scorer (scalp_engine, unified path)

The canonical orchestrator (`orchestrator/engine.py`) imports `Scorer` from
`scalp_engine.scorer` and calls `self.scorer.score(base)` on the feature
bag; `scripts/e2e_test.py` exercises the same call. The repository's
`scalp_engine/scorer.py` however only defines the legacy dict-based
`ScalpScorer`, which the specification explicitly excludes from the
contract, so `Scorer.score` itself is modelled from the specification. -/

/-- Clamp a rational to the unit interval, the `max(0.0, min(1.0, x))`
idiom used throughout the pipeline. -/
def clamp01 (x : ℚ) : ℚ := max 0 (min 1 x)

/-- Coercion of a possibly missing feature value to a number: a missing
feature reads as `0`, mirroring `feats.get(k, 0.0)`. -/
def numOrZero (x : Option ℚ) : ℚ := x.getD 0

/-- Feature bag seen by the unified-path scorer: the seven scored inputs,
each possibly missing. -/
structure ScalpFeatures where
  oi_divergence : Option ℚ
  liquidity_pressure : Option ℚ
  orderflow_imbalance : Option ℚ
  sweep_rejection : Option ℚ
  short_momentum : Option ℚ
  funding_impulse : Option ℚ
  btc_alignment : Option ℚ
deriving Repr, DecidableEq

/-- Modelled from the spec: `Scorer.score` is missing from `src`
(`scalp_engine/scorer.py` defines only the legacy `ScalpScorer`; the
canonical orchestrator and `e2e_test.py` call `Scorer().score(feats)`).
Spec §4.5: fixed integer weights `oi_divergence 20, liquidity_pressure 20,
orderflow_imbalance 15, sweep_rejection 15, short_momentum 10,
funding_impulse 10, btc_alignment 10`; "Each input is coerced to numeric,
clamped to [0,1], multiplied by its weight; sum divided by total weight ×
100". -/
def Scorer.score (f : ScalpFeatures) : ℚ :=
  let weighted :=
    clamp01 (numOrZero f.oi_divergence) * 20 +
    clamp01 (numOrZero f.liquidity_pressure) * 20 +
    clamp01 (numOrZero f.orderflow_imbalance) * 15 +
    clamp01 (numOrZero f.sweep_rejection) * 15 +
    clamp01 (numOrZero f.short_momentum) * 10 +
    clamp01 (numOrZero f.funding_impulse) * 10 +
    clamp01 (numOrZero f.btc_alignment) * 10
  let total_weight : ℚ := 20 + 20 + 15 + 15 + 10 + 10 + 10
  weighted / total_weight * 100

/-! ## Data hub: bounded unified queue (data_fetcher/hub.py)

`DataHub.queue = asyncio.Queue(maxsize=10000)`; `_emit` does a
non-blocking `put_nowait`, and on `QueueFull` drains exactly one element
(`await self.queue.get()`) before enqueueing the new event. -/

/-- Capacity of the hub's unified queue (`asyncio.Queue(maxsize=10000)`). -/
def QUEUE_MAX : ℕ := 10000

/-- `DataHub._emit`: FIFO queue as a list with the head as the oldest
element. `put_nowait` appends and raises exactly when the queue already
holds `QUEUE_MAX` elements, in which case one `get()` removes the head and
the event is then enqueued. -/
def DataHub.emit {α : Type} (q : List α) (e : α) : List α :=
  if q.length < QUEUE_MAX then q ++ [e] else q.tail ++ [e]

/-! ## Exit manager: trailing-stop logic for shorts

`orchestrator/engine.py` calls
`self.exit.trailing_for_short(entry, price, best_low)` and destructures
`(should_exit, reason, pnl_pct, updated_best_low, trail_active)`;
`scripts/e2e_test.py` exercises the same contract. The method body is not
in `src` (`scalp_engine/exit_manager.py` holds only the legacy TP/SL
variant), so it is modelled from the specification. -/

/-- Trailing configuration, spec §4.7 / engine env defaults:
`TRAIL_ACTIVATE_PCT = 0.6`, `TRAIL_GIVEBACK_PCT = 0.4`,
`HARD_STOP_LOSS_PCT = 1.2`. -/
structure TrailCfg where
  TRAIL_ACTIVATE_PCT : ℚ
  TRAIL_GIVEBACK_PCT : ℚ
  HARD_STOP_LOSS_PCT : ℚ
deriving Repr, DecidableEq

/-- Default trailing configuration (the engine's env-var defaults). -/
def defaultTrailCfg : TrailCfg :=
  { TRAIL_ACTIVATE_PCT := 6/10, TRAIL_GIVEBACK_PCT := 4/10, HARD_STOP_LOSS_PCT := 12/10 }

/-- Result tuple of `ExitManager.trailing_for_short`:
`(should_exit, reason, pnl_pct, updated_best_low, trail_active)`. -/
structure TrailResult where
  should_exit : Bool
  reason : String
  pnl_pct : ℚ
  updated_best_low : ℚ
  trail_active : Bool
deriving Repr, DecidableEq

/-- Modelled from the spec: `ExitManager.trailing_for_short` is missing
from `src` (only its caller `Orchestrator._check_trailing` and the e2e
test are present). Spec §4.7, algorithm on each price update for a SHORT:
1. `best_low ← min(best_low, current)` (persisted by the caller when
   changed); 2. `peak_pnl_pct ← (entry − best_low)/entry × 100` with
   `pnl_pct = (entry − current)/entry × 100`; 3. exit `hard_stop` if
   `pnl_pct ≤ −HARD_STOP_LOSS_PCT`; 4. else exit `trailing_giveback` if
   `pnl_pct ≥ TRAIL_ACTIVATE_PCT` (trail armed) and
   `peak_pnl_pct ≥ TRAIL_ACTIVATE_PCT` and
   `peak_pnl_pct − pnl_pct ≥ TRAIL_GIVEBACK_PCT`; 5. else hold. -/
def ExitManager.trailing_for_short (cfg : TrailCfg) (entry current best_low : ℚ) :
    TrailResult :=
  let new_best := min best_low current
  let pnl_pct := (entry - current) / entry * 100
  let peak_pnl_pct := (entry - new_best) / entry * 100
  let trail_active := cfg.TRAIL_ACTIVATE_PCT ≤ pnl_pct
  if pnl_pct ≤ -cfg.HARD_STOP_LOSS_PCT then
    ⟨true, "hard_stop", pnl_pct, new_best, trail_active⟩
  else if cfg.TRAIL_ACTIVATE_PCT ≤ pnl_pct ∧ cfg.TRAIL_ACTIVATE_PCT ≤ peak_pnl_pct ∧
      cfg.TRAIL_GIVEBACK_PCT ≤ peak_pnl_pct - pnl_pct then
    ⟨true, "trailing_giveback", pnl_pct, new_best, trail_active⟩
  else
    ⟨false, "", pnl_pct, new_best, trail_active⟩

/-! ## Journal (storage/sqlite_cache.py)

`SQLiteCache` over a WAL SQLite file. Each table becomes a list of rows,
newest row consed to the front for plain `INSERT`s. -/

/-- Position status column (`'OPEN'` / `'CLOSED'`). -/
inductive PosStatus where
  | OPEN
  | CLOSED
deriving Repr, DecidableEq

/-- One row of the `positions` table. -/
structure PosRow where
  sym : String
  entry_ts : ℚ
  entry_price : ℚ
  status : PosStatus
  best_low : Option ℚ
  exit_ts : Option ℚ
  exit_price : Option ℚ
  exit_reason : Option String
  pnl_pct : Option ℚ
deriving Repr, DecidableEq

/-- One row of the `signals` table. -/
structure SignalRow where
  ts : ℚ
  sym : String
  score : ℚ
  entry_price : ℚ
  reason : String
  dedup_hash : Option String
  signal_type : String
deriving Repr, DecidableEq

/-- One row of the `ticks` table. -/
structure TickRow where
  ts : ℚ
  ex : String
  sym : String
  price : ℚ
deriving Repr, DecidableEq

/-- One row of the `features` table (`data` is an opaque JSON string). -/
structure FeatRow where
  ts : ℚ
  sym : String
  data : String
deriving Repr, DecidableEq

/-- One row of the `ranks` table. -/
structure RankRow where
  ts : ℚ
  sym : String
  score : ℚ
deriving Repr, DecidableEq

/-- One row of the `unified_ticks` table; `UNIQUE(sym, ts)`. -/
structure UnifiedRow where
  ts : ℚ
  sym : String
  price : Option ℚ
  mark : Option ℚ
  funding : Option ℚ
  oi : Option ℚ
  spread : Option ℚ
  volume : Option ℚ
  bid_total : Option ℚ
  ask_total : Option ℚ
  imbalance : Option ℚ
deriving Repr, DecidableEq

/-- The journal state: the allowlist loaded at construction plus one list
per table. -/
structure SQLiteCacheState where
  allowed : List String
  ticks : List TickRow
  features : List FeatRow
  signals : List SignalRow
  positions : List PosRow
  ranks : List RankRow
  unified_ticks : List UnifiedRow
deriving Repr, DecidableEq

/-- A journal whose tables are all empty. -/
def SQLiteCacheState.empty (allowed : List String) : SQLiteCacheState :=
  ⟨allowed, [], [], [], [], [], []⟩

/-- `SQLiteCache._validate_symbol`. -/
def SQLiteCache.validate_symbol (st : SQLiteCacheState) (sym : String) : Bool :=
  st.allowed.contains sym

/-- `SQLiteCache._validate_timestamp`: `abs(ts - time.time()) < 300`. -/
def SQLiteCache.validate_timestamp (ts now : ℚ) : Bool :=
  |ts - now| < 300

/-- `SQLiteCache.store_tick`: validates symbol, timestamp and positive
price, otherwise silently drops. -/
def SQLiteCache.store_tick (st : SQLiteCacheState) (ex sym : String) (price ts now : ℚ) :
    SQLiteCacheState :=
  if SQLiteCache.validate_symbol st sym ∧ SQLiteCache.validate_timestamp ts now ∧ 0 < price then
    { st with ticks := ⟨ts, ex, sym, price⟩ :: st.ticks }
  else st

/-- `SQLiteCache.store_features`: validates symbol and timestamp. -/
def SQLiteCache.store_features (st : SQLiteCacheState) (sym data : String) (ts now : ℚ) :
    SQLiteCacheState :=
  if SQLiteCache.validate_symbol st sym ∧ SQLiteCache.validate_timestamp ts now then
    { st with features := ⟨ts, sym, data⟩ :: st.features }
  else st

/-- Field bundle of the unified dict passed to `store_unified` (the
callers build it in `DataHub._emit_unified`). -/
structure UnifiedDict where
  symbol : String
  timestamp : ℚ
  price : Option ℚ
  mark : Option ℚ
  funding : Option ℚ
  oi : Option ℚ
  spread : Option ℚ
  volume : Option ℚ
  bid_total : Option ℚ
  ask_total : Option ℚ
  imbalance : Option ℚ
deriving Repr, DecidableEq

/-- `SQLiteCache.store_unified`: validates symbol and timestamp, then
`INSERT OR REPLACE` on the `UNIQUE(sym, ts)` key. -/
def SQLiteCache.store_unified (st : SQLiteCacheState) (u : UnifiedDict) (now : ℚ) :
    SQLiteCacheState :=
  if SQLiteCache.validate_symbol st u.symbol ∧ SQLiteCache.validate_timestamp u.timestamp now then
    { st with unified_ticks :=
        ⟨u.timestamp, u.symbol, u.price, u.mark, u.funding, u.oi, u.spread, u.volume,
          u.bid_total, u.ask_total, u.imbalance⟩ ::
        st.unified_ticks.filter (fun r => ¬(r.sym = u.symbol ∧ r.ts = u.timestamp)) }
  else st

/-- `SQLiteCache.store_signal`: validates the symbol only — unlike the
tick/feature/unified writers it performs no timestamp check. -/
def SQLiteCache.store_signal (st : SQLiteCacheState) (sym : String) (score entry_price : ℚ)
    (reason : String) (ts : ℚ) (dedup_hash : Option String) (signal_type : String) :
    SQLiteCacheState :=
  if SQLiteCache.validate_symbol st sym then
    { st with signals := ⟨ts, sym, score, entry_price, reason, dedup_hash, signal_type⟩ :: st.signals }
  else st

/-- `SQLiteCache.seen_recent_signal`: any signal row for `(sym, hash)`
with `ts > now − window_sec`. -/
def SQLiteCache.seen_recent_signal (st : SQLiteCacheState) (sym dedup_hash : String)
    (window_sec now : ℚ) : Bool :=
  st.signals.any (fun r =>
    r.sym = sym ∧ r.dedup_hash = some dedup_hash ∧ now - window_sec < r.ts)

/-- `SQLiteCache.seen_recent_symbol_signal`: any signal row for `sym` of
the given type with `ts > now − window_sec` (the engine always passes a
non-empty type, so only that branch is modelled). -/
def SQLiteCache.seen_recent_symbol_signal (st : SQLiteCacheState) (sym : String)
    (window_sec : ℚ) (signal_type : String) (now : ℚ) : Bool :=
  st.signals.any (fun r =>
    r.sym = sym ∧ r.signal_type = signal_type ∧ now - window_sec < r.ts)

/-- `SQLiteCache.open_position`: validates the symbol only, then inserts
an unconditional `OPEN` row; `best_low` defaults to the entry price. -/
def SQLiteCache.open_position (st : SQLiteCacheState) (sym : String) (entry_price entry_ts : ℚ)
    (best_low : Option ℚ) : SQLiteCacheState :=
  if SQLiteCache.validate_symbol st sym then
    { st with positions :=
        ⟨sym, entry_ts, entry_price, PosStatus.OPEN, some (best_low.getD entry_price),
          none, none, none, none⟩ :: st.positions }
  else st

/-- `SELECT ... FROM positions WHERE sym=? AND status='OPEN' ORDER BY
entry_ts DESC LIMIT 1`: the open row for `sym` with maximal `entry_ts`. -/
def latestOpenRow (ps : List PosRow) (sym : String) : Option PosRow :=
  (ps.filter (fun r => r.sym = sym ∧ r.status = PosStatus.OPEN)).foldl
    (fun acc r =>
      match acc with
      | none => some r
      | some b => if b.entry_ts < r.entry_ts then some r else some b) none

/-- `SQLiteCache.close_position`: reads the entry price of the most recent
open row, computes `pnl_pct = (entry − exit)/entry × 100` and marks every
open row of the symbol `CLOSED` with the exit fields; no-op when no open
row exists. -/
def SQLiteCache.close_position (st : SQLiteCacheState) (sym : String) (exit_price : ℚ)
    (reason : String) (exit_ts : ℚ) : SQLiteCacheState :=
  match latestOpenRow st.positions sym with
  | none => st
  | some row =>
    let entry_price := row.entry_price
    let pnl_pct := (entry_price - exit_price) / entry_price * 100
    { st with positions := st.positions.map (fun r =>
        if r.sym = sym ∧ r.status = PosStatus.OPEN then
          { r with status := PosStatus.CLOSED, exit_ts := some exit_ts,
                   exit_price := some exit_price, exit_reason := some reason,
                   pnl_pct := some pnl_pct }
        else r) }

/-- `SQLiteCache.update_best_low`: `UPDATE positions SET best_low=? WHERE
sym=? AND status='OPEN'`. -/
def SQLiteCache.update_best_low (st : SQLiteCacheState) (sym : String) (best_low : ℚ) :
    SQLiteCacheState :=
  { st with positions := st.positions.map (fun r =>
      if r.sym = sym ∧ r.status = PosStatus.OPEN then { r with best_low := some best_low }
      else r) }

/-- Projection returned by `SQLiteCache.get_open_position`. -/
structure OpenPos where
  entry_ts : ℚ
  entry_price : ℚ
  best_low : Option ℚ
deriving Repr, DecidableEq

/-- `SQLiteCache.get_open_position`: the `(entry_ts, entry_price,
best_low)` projection of the most recent open row. -/
def SQLiteCache.get_open_position (st : SQLiteCacheState) (sym : String) : Option OpenPos :=
  match latestOpenRow st.positions sym with
  | none => none
  | some r => some ⟨r.entry_ts, r.entry_price, r.best_low⟩

/-- `SQLiteCache.store_rank`: validates the symbol only — no timestamp
check. -/
def SQLiteCache.store_rank (st : SQLiteCacheState) (sym : String) (score ts : ℚ) :
    SQLiteCacheState :=
  if SQLiteCache.validate_symbol st sym then
    { st with ranks := ⟨ts, sym, score⟩ :: st.ranks }
  else st

/-- Dead code in `storage/sqlite_cache.py`: the text of `prune_old` (and of
`latest_price`, `latest_features`, `close`) appears in the file, but
indented inside the module-level helper `_float_or_none`, after its
`return`/`except` — it never becomes an attribute of `SQLiteCache`. Its
body, had it been a method, deletes rows older than `days × 86400` seconds
before now from `ticks`, `unified_ticks` and `features`. -/
def SQLiteCache.prune_old_deadcode (st : SQLiteCacheState) (days now : ℚ) : SQLiteCacheState :=
  let cutoff := now - days * 86400
  { st with
    ticks := st.ticks.filter (fun r => ¬(r.ts < cutoff)),
    unified_ticks := st.unified_ticks.filter (fun r => ¬(r.ts < cutoff)),
    features := st.features.filter (fun r => ¬(r.ts < cutoff)) }

/-- The methods actually defined in the body of `class SQLiteCache`
(`storage/sqlite_cache.py`), in source order. `prune_old`, `latest_price`,
`latest_features` and `close` are NOT here: their `def`s sit inside the
module-level function `_float_or_none`, after its return. -/
def sqliteCacheMethods : List String :=
  ["__init__", "_init_schema", "_validate_symbol", "_validate_timestamp",
   "store_tick", "store_features", "store_unified", "store_signal",
   "seen_recent_signal", "seen_recent_symbol_signal", "open_position",
   "close_position", "update_best_low", "get_open_position", "store_rank",
   "latest_tick", "latest_unified"]

/-! ## Orchestrator (orchestrator/engine.py) -/

/-- `Orchestrator._check_trailing`: reads the open position, resolves
`best_low = float(pos.get("best_low") or entry)` (note Python falsiness:
a stored `0.0` also falls back to the entry price), runs the trailing
state machine, persists `best_low` when it changed, and on exit closes
the position and stores an `exit_<reason>` signal with a null hash. -/
def Orchestrator.check_trailing (cfg : TrailCfg) (st : SQLiteCacheState) (sym : String)
    (price now : ℚ) : SQLiteCacheState :=
  match SQLiteCache.get_open_position st sym with
  | none => st
  | some pos =>
    let entry := pos.entry_price
    let best_low :=
      match pos.best_low with
      | none => entry
      | some b => if b = 0 then entry else b
    let res := ExitManager.trailing_for_short cfg entry price best_low
    let st1 :=
      if res.updated_best_low ≠ best_low then
        SQLiteCache.update_best_low st sym res.updated_best_low
      else st
    if res.should_exit then
      let st2 := SQLiteCache.close_position st1 sym price res.reason now
      SQLiteCache.store_signal st2 sym res.pnl_pct price ("exit_" ++ res.reason) now none "exit"
    else st1

/-- Whether `_check_trailing` fires an exit for this price update. -/
def Orchestrator.trailing_fired (cfg : TrailCfg) (st : SQLiteCacheState) (sym : String)
    (price : ℚ) : Bool :=
  match SQLiteCache.get_open_position st sym with
  | none => false
  | some pos =>
    let entry := pos.entry_price
    let best_low :=
      match pos.best_low with
      | none => entry
      | some b => if b = 0 then entry else b
    (ExitManager.trailing_for_short cfg entry price best_low).should_exit

/-- In-memory plus durable orchestrator state: the `in_position` set and
the journal. -/
structure OrchState where
  in_position : List String
  db : SQLiteCacheState
deriving Repr, DecidableEq

/-- `Orchestrator._consume`, entry branch: after the gates pass the engine
adds the symbol to `in_position`, inserts the `OPEN` position row and the
`entry` signal row (with its dedup hash). -/
def Orchestrator.do_entry (s : OrchState) (sym : String) (score price : ℚ) (dh : String)
    (now : ℚ) : OrchState :=
  { in_position := sym :: s.in_position,
    db := SQLiteCache.store_signal
            (SQLiteCache.open_position s.db sym price now none)
            sym score price "entry" now (some dh) "entry" }

/-- Price-update branch: `_check_trailing` runs for the symbol; when it
fires, the symbol is also discarded from `in_position`. -/
def Orchestrator.do_price_tick (cfg : TrailCfg) (s : OrchState) (sym : String)
    (price now : ℚ) : OrchState :=
  { in_position :=
      if Orchestrator.trailing_fired cfg s.db sym price then s.in_position.erase sym
      else s.in_position,
    db := Orchestrator.check_trailing cfg s.db sym price now }

/-- Reachable orchestrator states. `C` is `ENTRY_COOLDOWN_SEC`;
`allowRestart` enables the restart transition (process restart clears the
in-memory `in_position` set but keeps the journal). The `entry` step
carries exactly the journal-backed gates the engine checks before writing
(`sym in self._allowed` at the loop top; `sym not in self.in_position`;
`seen_recent_symbol_signal(sym, C, 'entry')` false;
`seen_recent_signal(sym, dh, 900)` false); time only moves forward. -/
inductive Orchestrator.Reach (cfg : TrailCfg) (C : ℚ) (allowRestart : Bool) :
    ℚ → OrchState → Prop where
  | init (t : ℚ) (allowed : List String) :
      Orchestrator.Reach cfg C allowRestart t ⟨[], SQLiteCacheState.empty allowed⟩
  | entry {t : ℚ} {s : OrchState} (t' : ℚ) (sym : String) (score price : ℚ) (dh : String)
      (hm : t ≤ t')
      (hallow : SQLiteCache.validate_symbol s.db sym = true)
      (hin : sym ∉ s.in_position)
      (hcool : SQLiteCache.seen_recent_symbol_signal s.db sym C "entry" t' = false)
      (hded : SQLiteCache.seen_recent_signal s.db sym dh 900 t' = false)
      (hre : Orchestrator.Reach cfg C allowRestart t s) :
      Orchestrator.Reach cfg C allowRestart t' (Orchestrator.do_entry s sym score price dh t')
  | priceTick {t : ℚ} {s : OrchState} (t' : ℚ) (sym : String) (price : ℚ)
      (hm : t ≤ t')
      (hre : Orchestrator.Reach cfg C allowRestart t s) :
      Orchestrator.Reach cfg C allowRestart t' (Orchestrator.do_price_tick cfg s sym price t')
  | restart {t : ℚ} {s : OrchState} (t' : ℚ)
      (hm : t ≤ t')
      (hflag : allowRestart = true)
      (hre : Orchestrator.Reach cfg C allowRestart t s) :
      Orchestrator.Reach cfg C allowRestart t' ⟨[], s.db⟩

/-- Number of `OPEN` position rows for a symbol. -/
def countOpenFor (ps : List PosRow) (sym : String) : ℕ :=
  (ps.filter (fun r => r.sym = sym ∧ r.status = PosStatus.OPEN)).length

/-! ## Data hub: cross-venue averaging (data_fetcher/hub.py) -/

/-- Per-venue derived metric,
`metrics[(ex, canon_sym)] = {price, spread, bid_total, ask_total, ts}`. -/
structure VenueMetric where
  ex : String
  sym : String
  price : Option ℚ
  spread : Option ℚ
  bid_total : Option ℚ
  ask_total : Option ℚ
  ts : ℚ
deriving Repr, DecidableEq

/-- One `funding_rates[(ex, canon_sym)] = (ts, rate)` entry. -/
structure FundingEntry where
  ex : String
  sym : String
  ts : ℚ
  rate : ℚ
deriving Repr, DecidableEq

/-- One `open_interest[(ex, canon_sym)]` bounded deque of `(ts, value)`. -/
structure OIEntry where
  ex : String
  sym : String
  dq : List (ℚ × ℚ)
deriving Repr, DecidableEq

/-- The hub caches feeding `_emit_unified`. -/
structure HubState where
  metrics : List VenueMetric
  funding_rates : List FundingEntry
  open_interest : List OIEntry
deriving Repr, DecidableEq

/-- `DataHub._avg`: mean of the non-`None` values, `None` when empty. -/
def DataHub.avg (vals : List (Option ℚ)) : Option ℚ :=
  let xs := vals.filterMap id
  if xs.length = 0 then none else some (xs.sum / xs.length)

/-- `DataHub._emit_unified`: per-venue metrics fresh within 180 s are
averaged field-wise; imbalance is averaged over venues with positive
depth; funding/OI are averaged over entries fresh within 7200 s (for OI,
the last element of each venue's deque); `mark` mirrors `price`;
`timestamp = int(now)`. Returns `none` when no venue metric is fresh
(nothing is emitted). -/
def DataHub.emit_unified (st : HubState) (canon_sym : String) (now : ℚ) :
    Option UnifiedDict :=
  let per_ex := st.metrics.filter (fun m => m.sym = canon_sym ∧ now - m.ts ≤ 180)
  if per_ex.isEmpty then none
  else
    let price := DataHub.avg (per_ex.map (fun m => m.price))
    let spread := DataHub.avg (per_ex.map (fun m => m.spread))
    let bid_total := DataHub.avg (per_ex.map (fun m => m.bid_total))
    let ask_total := DataHub.avg (per_ex.map (fun m => m.ask_total))
    let imbs := per_ex.filterMap (fun m =>
      match m.bid_total, m.ask_total with
      | some bt, some at2 => if 0 < bt + at2 then some ((at2 - bt) / (at2 + bt)) else none
      | _, _ => none)
    let imbalance := DataHub.avg (imbs.map some)
    let fr_vals := st.funding_rates.filterMap (fun f =>
      if f.sym = canon_sym ∧ now - f.ts ≤ 7200 then some f.rate else none)
    let funding := DataHub.avg (fr_vals.map some)
    let oi_vals := st.open_interest.filterMap (fun e =>
      if e.sym = canon_sym then
        match e.dq.getLast? with
        | some (ts, val) => if now - ts ≤ 7200 then some val else none
        | none => none
      else none)
    let oi := DataHub.avg (oi_vals.map some)
    let mark := price
    some { symbol := canon_sym, timestamp := ((⌊now⌋ : ℤ) : ℚ), price := price, mark := mark,
           funding := funding, oi := oi, spread := spread, volume := none,
           bid_total := bid_total, ask_total := ask_total, imbalance := imbalance }

/-- Arithmetic mean of a list of rationals, `none` when the list is
empty. -/
def meanQ (xs : List ℚ) : Option ℚ :=
  if xs = [] then none else some (xs.sum / xs.length)

/-- The venues whose per-venue metric for `sym` is fresh (within 180 s of
now) — the claim's averaging population. -/
def freshVenueMetrics (st : HubState) (sym : String) (now : ℚ) : List VenueMetric :=
  st.metrics.filter (fun m => m.sym = sym ∧ now - m.ts ≤ 180)

/-- Restatement of the unified-tick emission following the specification's
words, to be compared with the embedded `DataHub.emit_unified`: price,
spread, bid/ask totals are the arithmetic mean of the non-null per-venue
values over exactly the fresh venues; imbalance is the mean of
`(ask − bid)/(ask + bid)` over venues where that denominator is positive;
funding and OI are averaged over venues whose latest entry is within
7200 s; `mark` equals `price`; nothing is emitted when no venue metric is
fresh. -/
def DataHub.emit_unified_specification (st : HubState) (sym : String) (now : ℚ) :
    Option UnifiedDict :=
  let fresh := freshVenueMetrics st sym now
  if fresh = [] then none
  else
    let price := meanQ (fresh.filterMap (fun m => m.price))
    some { symbol := sym, timestamp := ((⌊now⌋ : ℤ) : ℚ),
           price := price,
           mark := price,
           funding := meanQ (st.funding_rates.filterMap (fun f =>
             if f.sym = sym ∧ now - f.ts ≤ 7200 then some f.rate else none)),
           oi := meanQ (st.open_interest.filterMap (fun e =>
             if e.sym = sym then
               match e.dq.getLast? with
               | some (ts, val) => if now - ts ≤ 7200 then some val else none
               | none => none
             else none)),
           spread := meanQ (fresh.filterMap (fun m => m.spread)),
           volume := none,
           bid_total := meanQ (fresh.filterMap (fun m => m.bid_total)),
           ask_total := meanQ (fresh.filterMap (fun m => m.ask_total)),
           imbalance := meanQ (fresh.filterMap (fun m =>
             match m.bid_total, m.ask_total with
             | some bt, some at2 => if 0 < bt + at2 then some ((at2 - bt) / (at2 + bt)) else none
             | _, _ => none)) }

/-! ## Symbol translation (data_fetcher/symbols.py, hub `_canon`)

Python strings are modelled as lists of Unicode code points so that
`str.replace` / `str.lower` / `str.upper` have executable models. -/

/-- `str.lower` on one code point (ASCII range, the range symbols use). -/
def lowerCP (c : ℕ) : ℕ := if 65 ≤ c ∧ c ≤ 90 then c + 32 else c

/-- `str.upper` on one code point (ASCII range). -/
def upperCP (c : ℕ) : ℕ := if 97 ≤ c ∧ c ≤ 122 then c - 32 else c

/-- `str.lower`. -/
def strLower (s : List ℕ) : List ℕ := s.map lowerCP

/-- `str.upper`. -/
def strUpper (s : List ℕ) : List ℕ := s.map upperCP

/-- Code points of `"USDT"`. -/
def cpUSDT : List ℕ := [85, 83, 68, 84]

/-- Code points of `"usdt"`. -/
def cpUsdtLower : List ℕ := [117, 115, 100, 116]

/-- Code point of `'_'`. -/
def cpUnderscore : ℕ := 95

/-- Code point of `'/'`. -/
def cpSlash : ℕ := 47

/-- Code points of `"_usdt"`. -/
def cpLbankTail : List ℕ := cpUnderscore :: cpUsdtLower

/-- Code points of `"lbank"`. -/
def cpLbank : List ℕ := [108, 98, 97, 110, 107]

/-- Python `s.replace(pat, rep)` for a non-empty pattern: scan left to
right, replacing non-overlapping occurrences. -/
def pyReplace (pat rep : List ℕ) : List ℕ → List ℕ
  | [] => []
  | c :: rest =>
    if _hp : pat ≠ [] ∧ pat.isPrefixOf (c :: rest) then
      rep ++ pyReplace pat rep ((c :: rest).drop pat.length)
    else
      c :: pyReplace pat rep rest
termination_by s => s.length
decreasing_by
  · have hlen : 0 < pat.length := List.length_pos.mpr _hp.1
    simp only [List.length_drop, List.length_cons]
    omega
  · simp

/-- `symbols.canon_to_lbank`:
`f"{sym[:-4].lower()}_usdt" if sym.endswith("USDT") else f"{sym.lower()}_usdt"`. -/
def canon_to_lbank (sym : List ℕ) : List ℕ :=
  if cpUSDT.isSuffixOf sym then strLower (sym.take (sym.length - 4)) ++ cpLbankTail
  else strLower sym ++ cpLbankTail

/-- `DataHub._canon`: for LBank,
`sym.replace("_usdt", "").replace("_", "").upper() + "USDT"`; otherwise
`sym.upper()`. -/
def DataHub.canon (ex : List ℕ) (sym : List ℕ) : List ℕ :=
  if ex = cpLbank then
    strUpper (pyReplace [cpUnderscore] [] (pyReplace cpLbankTail [] sym)) ++ cpUSDT
  else strUpper sym

/-- `DataHub._validate_timestamp`: falsy or non-positive timestamps are
rejected, otherwise `abs(now - ts) < 300`. Defined in the hub but — as
proved below — not applied on any venue-event path. -/
def DataHub.validate_timestamp (ts now : ℚ) : Bool :=
  if ts ≤ 0 then false else |now - ts| < 300

/-! ## Auxiliary predicates and concrete demonstration states -/

/-- Pairwise separation property of two journalled signal rows, with
cooldown window `C`: same-symbol `entry` rows lie at least `C` seconds
apart, and same-symbol rows carrying the same dedup hash lie at least
900 seconds apart. -/
def sigOK (C : ℚ) (a b : SignalRow) : Prop :=
  (a.sym = b.sym → a.signal_type = "entry" → b.signal_type = "entry" →
    C ≤ |a.ts - b.ts|) ∧
  (∀ h : String, a.sym = b.sym → a.dedup_hash = some h → b.dedup_hash = some h →
    900 ≤ |a.ts - b.ts|)

/-- A fresh journal whose allowlist holds the single symbol `BTCUSDT`. -/
def demoCache : SQLiteCacheState := SQLiteCacheState.empty ["BTCUSDT"]

/-- Journal with one open short on `BTCUSDT`: entry price 1 at time 0. -/
def demoOpenCache : SQLiteCacheState :=
  SQLiteCache.open_position demoCache "BTCUSDT" 1 0 none

/-- Orchestrator state after one entry pass at `t = 0`
(score 80, price 1, dedup hash `h1`). -/
def demoEntryState : OrchState :=
  Orchestrator.do_entry ⟨[], demoCache⟩ "BTCUSDT" 80 1 "h1" 0

/-- `demoEntryState` after a process restart: the in-memory
`in_position` set is lost, the journal survives. -/
def demoRestartState : OrchState := ⟨[], demoEntryState.db⟩

/-- `demoRestartState` after a second entry pass for the same symbol at
`t = 400` (cooldown elapsed, fresh dedup hash `h2`): the journal now
holds two `OPEN` rows for `BTCUSDT`. -/
def demoDoubleOpenState : OrchState :=
  Orchestrator.do_entry demoRestartState "BTCUSDT" 80 1 "h2" 400

/-! ## Theorems -/

/-- Every clamped, coerced scorer input lies in the unit interval. -/
theorem clamp01_numOrZero_mem (x : Option ℚ) :
    0 ≤ clamp01 (numOrZero x) ∧ clamp01 (numOrZero x) ≤ 1 :=
  ⟨le_max_left 0 _, max_le (by norm_num) (min_le_left _ _)⟩

/-- C1: For every invocation of the scorer, with arbitrary feature inputs
(negative, missing — floats are modelled as rationals, so IEEE NaN is
approximated by arbitrary rational garbage), the returned score lies in
[0, 100]: each input is coerced to numeric, clamped to [0, 1], multiplied
by its weight, and the weighted sum is normalized by the total weight
times 100. -/
theorem scorer_score_range (f : ScalpFeatures) :
    0 ≤ Scorer.score f ∧ Scorer.score f ≤ 100 := by
  obtain ⟨a1, b1⟩ := clamp01_numOrZero_mem f.oi_divergence
  obtain ⟨a2, b2⟩ := clamp01_numOrZero_mem f.liquidity_pressure
  obtain ⟨a3, b3⟩ := clamp01_numOrZero_mem f.orderflow_imbalance
  obtain ⟨a4, b4⟩ := clamp01_numOrZero_mem f.sweep_rejection
  obtain ⟨a5, b5⟩ := clamp01_numOrZero_mem f.short_momentum
  obtain ⟨a6, b6⟩ := clamp01_numOrZero_mem f.funding_impulse
  obtain ⟨a7, b7⟩ := clamp01_numOrZero_mem f.btc_alignment
  simp only [Scorer.score]
  rw [show (20 + 20 + 15 + 15 + 10 + 10 + 10 : ℚ) = 100 by norm_num,
    div_mul_cancel₀ _ (by norm_num : (100 : ℚ) ≠ 0)]
  constructor <;> nlinarith

/-- C7: the unified queue never exceeds its capacity of 10 000: an
emission under capacity appends; at capacity exactly the oldest element is
dequeued before the new tick is enqueued, so the newest tick is always
retained (it is the last element), and any sequence of emissions starting
from an empty queue stays within the bound. -/
theorem unified_queue_bound (α : Type) :
    (∀ (q : List α) (e : α), q.length ≤ QUEUE_MAX →
      (DataHub.emit q e).length ≤ QUEUE_MAX ∧
      (DataHub.emit q e).getLast? = some e ∧
      (q.length < QUEUE_MAX → DataHub.emit q e = q ++ [e]) ∧
      (q.length = QUEUE_MAX → DataHub.emit q e = q.tail ++ [e])) ∧
    (∀ evs : List α, (evs.foldl DataHub.emit []).length ≤ QUEUE_MAX) := by
  have hstep : ∀ (q : List α) (e : α), q.length ≤ QUEUE_MAX →
      (DataHub.emit q e).length ≤ QUEUE_MAX := by
    intro q e h
    unfold DataHub.emit
    simp only [QUEUE_MAX] at h ⊢
    split_ifs with hlt
    · simp only [List.length_append, List.length_singleton]
      omega
    · simp only [List.length_append, List.length_singleton, List.length_tail]
      omega
  refine ⟨fun q e h => ⟨hstep q e h, ?_, ?_, ?_⟩, ?_⟩
  · unfold DataHub.emit
    split_ifs <;> exact List.getLast?_concat _
  · intro hlt
    unfold DataHub.emit
    rw [if_pos hlt]
  · intro heq
    unfold DataHub.emit
    rw [if_neg (by omega)]
  · intro evs
    have key : ∀ (q : List α), q.length ≤ QUEUE_MAX →
        (evs.foldl DataHub.emit q).length ≤ QUEUE_MAX := by
      induction evs with
      | nil => intro q h; simpa using h
      | cons e es ih =>
        intro q h
        exact ih _ (hstep q e h)
    exact key [] (by simp)

/-- C7 witness: concrete instantiation of the queue-bound theorem on the
empty queue over natural-number events. -/
theorem unified_queue_bound_witness :
    (([] : List ℕ).length ≤ QUEUE_MAX) ∧
    (DataHub.emit ([] : List ℕ) 7).length ≤ QUEUE_MAX ∧
    (DataHub.emit ([] : List ℕ) 7).getLast? = some 7 ∧
    (([3, 1, 4] : List ℕ).foldl DataHub.emit []).length ≤ QUEUE_MAX :=
  ⟨by simp,
   ((unified_queue_bound ℕ).1 [] 7 (by simp)).1,
   ((unified_queue_bound ℕ).1 [] 7 (by simp)).2.1,
   (unified_queue_bound ℕ).2 [3, 1, 4]⟩

/-- C9: `prune_old` is not part of `SQLiteCache`'s method surface — its
`def` (together with `latest_price`, `latest_features`, `close`) sits
inside the module-level `_float_or_none` after that function's return, so
`journal.prune_old(days)` raises `AttributeError`. The orphaned body,
had it been a method, would indeed keep exactly the rows of `ticks`,
`unified_ticks` and `features` that are not older than `days × 86400`
seconds before now. -/
theorem prune_old_not_a_method :
    (sqliteCacheMethods.contains "prune_old") = false ∧
    (∀ (st : SQLiteCacheState) (days now : ℚ) (r : TickRow),
      r ∈ (SQLiteCache.prune_old_deadcode st days now).ticks ↔
        r ∈ st.ticks ∧ ¬(r.ts < now - days * 86400)) ∧
    (∀ (st : SQLiteCacheState) (days now : ℚ) (r : UnifiedRow),
      r ∈ (SQLiteCache.prune_old_deadcode st days now).unified_ticks ↔
        r ∈ st.unified_ticks ∧ ¬(r.ts < now - days * 86400)) ∧
    (∀ (st : SQLiteCacheState) (days now : ℚ) (r : FeatRow),
      r ∈ (SQLiteCache.prune_old_deadcode st days now).features ↔
        r ∈ st.features ∧ ¬(r.ts < now - days * 86400)) := by
  refine ⟨by decide, ?_, ?_, ?_⟩ <;>
    · intro st days now r
      simp [SQLiteCache.prune_old_deadcode, List.mem_filter]

/-- A timestamp at least 300 s in the past fails the freshness check. -/
theorem validate_timestamp_false_of (ts now : ℚ) (h : 300 ≤ now - ts) :
    SQLiteCache.validate_timestamp ts now = false := by
  simp only [SQLiteCache.validate_timestamp, decide_eq_false_iff_not, not_lt]
  calc (300 : ℚ) ≤ now - ts := h
    _ ≤ |now - ts| := le_abs_self _
    _ = |ts - now| := abs_sub_comm _ _

/-- C4 counterexample: `store_signal` performs no timestamp-freshness
check — at wall-clock time 100000 it persists a signal row stamped `ts =
0`, although `|0 − 100000| < 300` fails, so not every persisted row is
within 300 s of the wall clock at write time. -/
theorem store_signal_skips_freshness_check :
    (SQLiteCache.store_signal demoCache "BTCUSDT" 50 1 "entry" 0 none "entry").signals =
      [⟨0, "BTCUSDT", 50, 1, "entry", none, "entry"⟩] ∧
    SQLiteCache.validate_timestamp 0 100000 = false := by
  constructor
  · decide
  · exact validate_timestamp_false_of 0 100000 (by norm_num)

/-- C4 (amended): the journal's tick, unified-tick and feature writes
validate symbol ∈ allowlist and `|ts − now| < 300` and silently drop
violators; its signal, rank and position-open writes validate only the
allowlist and insert their row whatever its timestamp. -/
theorem journal_write_validation :
    (∀ (st : SQLiteCacheState) (ex sym : String) (price ts now : ℚ),
      SQLiteCache.validate_timestamp ts now = false →
      SQLiteCache.store_tick st ex sym price ts now = st) ∧
    (∀ (st : SQLiteCacheState) (ex sym : String) (price ts now : ℚ),
      SQLiteCache.validate_symbol st sym = false →
      SQLiteCache.store_tick st ex sym price ts now = st) ∧
    (∀ (st : SQLiteCacheState) (sym data : String) (ts now : ℚ),
      SQLiteCache.validate_timestamp ts now = false →
      SQLiteCache.store_features st sym data ts now = st) ∧
    (∀ (st : SQLiteCacheState) (sym data : String) (ts now : ℚ),
      SQLiteCache.validate_symbol st sym = false →
      SQLiteCache.store_features st sym data ts now = st) ∧
    (∀ (st : SQLiteCacheState) (u : UnifiedDict) (now : ℚ),
      SQLiteCache.validate_timestamp u.timestamp now = false →
      SQLiteCache.store_unified st u now = st) ∧
    (∀ (st : SQLiteCacheState) (u : UnifiedDict) (now : ℚ),
      SQLiteCache.validate_symbol st u.symbol = false →
      SQLiteCache.store_unified st u now = st) ∧
    (∀ (st : SQLiteCacheState) (sym : String) (score price ts : ℚ) (reason : String)
      (dh : Option String) (stype : String),
      SQLiteCache.validate_symbol st sym = true →
      (SQLiteCache.store_signal st sym score price reason ts dh stype).signals =
        ⟨ts, sym, score, price, reason, dh, stype⟩ :: st.signals) ∧
    (∀ (st : SQLiteCacheState) (sym : String) (score price ts : ℚ) (reason : String)
      (dh : Option String) (stype : String),
      SQLiteCache.validate_symbol st sym = false →
      SQLiteCache.store_signal st sym score price reason ts dh stype = st) ∧
    (∀ (st : SQLiteCacheState) (sym : String) (score ts : ℚ),
      SQLiteCache.validate_symbol st sym = true →
      (SQLiteCache.store_rank st sym score ts).ranks = ⟨ts, sym, score⟩ :: st.ranks) ∧
    (∀ (st : SQLiteCacheState) (sym : String) (score ts : ℚ),
      SQLiteCache.validate_symbol st sym = false →
      SQLiteCache.store_rank st sym score ts = st) ∧
    (∀ (st : SQLiteCacheState) (sym : String) (price ts : ℚ) (bl : Option ℚ),
      SQLiteCache.validate_symbol st sym = true →
      (SQLiteCache.open_position st sym price ts bl).positions =
        ⟨sym, ts, price, PosStatus.OPEN, some (bl.getD price), none, none, none, none⟩ ::
          st.positions) ∧
    (∀ (st : SQLiteCacheState) (sym : String) (price ts : ℚ) (bl : Option ℚ),
      SQLiteCache.validate_symbol st sym = false →
      SQLiteCache.open_position st sym price ts bl = st) := by
  refine ⟨?_, ?_, ?_, ?_, ?_, ?_, ?_, ?_, ?_, ?_, ?_, ?_⟩
  · intro st ex sym price ts now h
    simp [SQLiteCache.store_tick, h]
  · intro st ex sym price ts now h
    simp [SQLiteCache.store_tick, h]
  · intro st sym data ts now h
    simp [SQLiteCache.store_features, h]
  · intro st sym data ts now h
    simp [SQLiteCache.store_features, h]
  · intro st u now h
    simp [SQLiteCache.store_unified, h]
  · intro st u now h
    simp [SQLiteCache.store_unified, h]
  · intro st sym score price ts reason dh stype h
    simp [SQLiteCache.store_signal, h]
  · intro st sym score price ts reason dh stype h
    simp [SQLiteCache.store_signal, h]
  · intro st sym score ts h
    simp [SQLiteCache.store_rank, h]
  · intro st sym score ts h
    simp [SQLiteCache.store_rank, h]
  · intro st sym price ts bl h
    simp [SQLiteCache.open_position, h]
  · intro st sym price ts bl h
    simp [SQLiteCache.open_position, h]

/-- C4 witness: the amended validation behaviour at concrete inputs — a
stale tick write is dropped, while a signal write with an equally stale
timestamp persists its row. -/
theorem journal_write_validation_witness :
    (SQLiteCache.validate_timestamp 5 100000 = false) ∧
    SQLiteCache.store_tick demoCache "binance" "BTCUSDT" 2 5 100000 = demoCache ∧
    (SQLiteCache.validate_symbol demoCache "BTCUSDT" = true) ∧
    (SQLiteCache.store_signal demoCache "BTCUSDT" 60 2 "entry" 5 (some "w") "entry").signals =
      [⟨5, "BTCUSDT", 60, 2, "entry", some "w", "entry"⟩] := by
  refine ⟨validate_timestamp_false_of 5 100000 (by norm_num), ?_, by decide, ?_⟩
  · exact journal_write_validation.1 demoCache "binance" "BTCUSDT" 2 5 100000
      (validate_timestamp_false_of 5 100000 (by norm_num))
  · have h := journal_write_validation.2.2.2.2.2.2.1 demoCache "BTCUSDT" 60 2 5 "entry"
      (some "w") "entry" (by decide)
    simpa [demoCache, SQLiteCacheState.empty] using h

/-- The `ORDER BY entry_ts DESC LIMIT 1` fold only returns the
accumulator or a member of the list. -/
theorem pickFold_eq_some (l : List PosRow) : ∀ (acc : Option PosRow) (r : PosRow),
    l.foldl (fun acc r => match acc with
      | none => some r
      | some b => if b.entry_ts < r.entry_ts then some r else some b) acc = some r →
    acc = some r ∨ r ∈ l := by
  induction l with
  | nil =>
    intro acc r h
    exact Or.inl h
  | cons c t ih =>
    intro acc r h
    rcases ih _ _ h with h1 | h2
    · cases acc with
      | none =>
        simp only [Option.some.injEq] at h1
        exact Or.inr (by simp [h1])
      | some b =>
        by_cases hb : b.entry_ts < c.entry_ts
        · simp only [if_pos hb, Option.some.injEq] at h1
          exact Or.inr (by simp [h1])
        · simp only [if_neg hb] at h1
          exact Or.inl h1
    · exact Or.inr (List.mem_cons_of_mem _ h2)

/-- The fold never loses a non-`none` accumulator, and a non-empty list
always produces a result. -/
theorem pickFold_ne_none (l : List PosRow) : ∀ (acc : Option PosRow),
    (acc ≠ none ∨ l ≠ []) →
    l.foldl (fun acc r => match acc with
      | none => some r
      | some b => if b.entry_ts < r.entry_ts then some r else some b) acc ≠ none := by
  induction l with
  | nil =>
    intro acc h
    rcases h with h | h
    · exact h
    · exact absurd rfl h
  | cons c t ih =>
    intro acc _
    apply ih
    left
    cases acc with
    | none => simp
    | some b =>
      by_cases hb : b.entry_ts < c.entry_ts <;> simp [hb]

/-- The fold commutes with an `entry_ts`-preserving row transformer. -/
theorem pickFold_map (g : PosRow → PosRow) (hg : ∀ r, (g r).entry_ts = r.entry_ts)
    (l : List PosRow) : ∀ acc : Option PosRow,
    (l.map g).foldl (fun acc r => match acc with
      | none => some r
      | some b => if b.entry_ts < r.entry_ts then some r else some b) (acc.map g) =
    (l.foldl (fun acc r => match acc with
      | none => some r
      | some b => if b.entry_ts < r.entry_ts then some r else some b) acc).map g := by
  induction l with
  | nil => intro acc; rfl
  | cons c t ih =>
    intro acc
    cases acc with
    | none => simpa using ih (some c)
    | some b =>
      by_cases hb : b.entry_ts < c.entry_ts
      · have h1 : (g b).entry_ts < (g c).entry_ts := by rw [hg, hg]; exact hb
        simpa [h1, hb] using ih (some c)
      · have h1 : ¬(g b).entry_ts < (g c).entry_ts := by rw [hg, hg]; exact hb
        simpa [h1, hb] using ih (some b)

/-- A row selected by `latestOpenRow` belongs to the table, carries the
requested symbol and is `OPEN`. -/
theorem latestOpenRow_mem {ps : List PosRow} {sym : String} {r : PosRow}
    (h : latestOpenRow ps sym = some r) :
    r ∈ ps ∧ r.sym = sym ∧ r.status = PosStatus.OPEN := by
  unfold latestOpenRow at h
  rcases pickFold_eq_some _ _ _ h with h1 | h2
  · exact absurd h1 (by simp)
  · have := List.mem_filter.mp h2
    refine ⟨this.1, ?_⟩
    have hp := of_decide_eq_true this.2
    exact hp

/-- `latestOpenRow` is `none` exactly when the table has no open row for
the symbol. -/
theorem latestOpenRow_eq_none_iff (ps : List PosRow) (sym : String) :
    latestOpenRow ps sym = none ↔
      ps.filter (fun r => r.sym = sym ∧ r.status = PosStatus.OPEN) = [] := by
  unfold latestOpenRow
  constructor
  · intro h
    by_contra hne
    exact pickFold_ne_none _ none (Or.inr hne) h
  · intro h
    rw [h]
    rfl

/-- `update_best_low`'s row transformer commutes with the open-row filter. -/
theorem filter_update_eq (ps : List PosRow) (sym : String) (v : ℚ) :
    ((ps.map (fun r => if r.sym = sym ∧ r.status = PosStatus.OPEN
        then { r with best_low := some v } else r)).filter
      (fun r => r.sym = sym ∧ r.status = PosStatus.OPEN))
    = (ps.filter (fun r => r.sym = sym ∧ r.status = PosStatus.OPEN)).map
        (fun r => { r with best_low := some v }) := by
  induction ps with
  | nil => rfl
  | cons c t ih =>
    by_cases h : c.sym = sym ∧ c.status = PosStatus.OPEN
    · simp only [List.map_cons, if_pos h, List.filter_cons, ih]
      have h2 : (({ c with best_low := some v } : PosRow).sym = sym ∧
          ({ c with best_low := some v } : PosRow).status = PosStatus.OPEN) := h
      simp [h, h2]
    · simp only [List.map_cons, if_neg h, List.filter_cons, ih]
      simp [h]

/-- After `update_best_low`, the selected open row is the old one with its
`best_low` replaced. -/
theorem get_open_position_update (st : SQLiteCacheState) (sym : String) (v : ℚ) :
    SQLiteCache.get_open_position (SQLiteCache.update_best_low st sym v) sym =
      (SQLiteCache.get_open_position st sym).map
        (fun op => { op with best_low := some v }) := by
  unfold SQLiteCache.get_open_position SQLiteCache.update_best_low latestOpenRow
  simp only [filter_update_eq]
  have hmap := pickFold_map (fun r => { r with best_low := some v }) (fun r => rfl)
    (st.positions.filter (fun r => r.sym = sym ∧ r.status = PosStatus.OPEN)) none
  rw [Option.map_none'] at hmap
  rw [hmap]
  cases (st.positions.filter (fun r => r.sym = sym ∧ r.status = PosStatus.OPEN)).foldl
    (fun acc r => match acc with
      | none => some r
      | some b => if b.entry_ts < r.entry_ts then some r else some b) none <;> rfl

/-- After the close transformer runs, no open row for the symbol remains. -/
theorem filter_close_nil (ps : List PosRow) (sym : String) (exit_price : ℚ)
    (reason : String) (exit_ts pnl : ℚ) :
    ((ps.map (fun r => if r.sym = sym ∧ r.status = PosStatus.OPEN then
        { r with status := PosStatus.CLOSED, exit_ts := some exit_ts,
                 exit_price := some exit_price, exit_reason := some reason,
                 pnl_pct := some pnl }
      else r)).filter
      (fun r => r.sym = sym ∧ r.status = PosStatus.OPEN)) = [] := by
  induction ps with
  | nil => rfl
  | cons c t ih =>
    by_cases h : c.sym = sym ∧ c.status = PosStatus.OPEN
    · simp only [List.map_cons, if_pos h, List.filter_cons, ih]
      simp
    · simp only [List.map_cons, if_neg h, List.filter_cons, ih]
      simp [h]

/-- Closing leaves no open row for the symbol, whatever the prior state. -/
theorem get_open_position_close (st : SQLiteCacheState) (sym : String) (exit_price : ℚ)
    (reason : String) (exit_ts : ℚ) :
    SQLiteCache.get_open_position
      (SQLiteCache.close_position st sym exit_price reason exit_ts) sym = none := by
  unfold SQLiteCache.close_position
  cases hrow : latestOpenRow st.positions sym with
  | none =>
    unfold SQLiteCache.get_open_position
    rw [hrow]
  | some row =>
    unfold SQLiteCache.get_open_position
    have : latestOpenRow ((st.positions.map (fun r =>
        if r.sym = sym ∧ r.status = PosStatus.OPEN then
          { r with status := PosStatus.CLOSED, exit_ts := some exit_ts,
                   exit_price := some exit_price, exit_reason := some reason,
                   pnl_pct := some ((row.entry_price - exit_price) / row.entry_price * 100) }
        else r))) sym = none := by
      rw [latestOpenRow_eq_none_iff]
      exact filter_close_nil _ _ _ _ _ _
    simp only [this]

/-- C8: for every close of a position with positive entry price, the
journal records `pnl_pct = (entry − exit)/entry × 100` on the row it
closes, and whenever `exit_price < entry_price` that recorded PnL is
strictly positive. -/
theorem close_position_records_pnl (st : SQLiteCacheState) (sym : String)
    (exit_price : ℚ) (reason : String) (exit_ts : ℚ) (row : PosRow)
    (hrow : latestOpenRow st.positions sym = some row)
    (hE : 0 < row.entry_price) :
    (∀ r ∈ st.positions, r.sym = sym → r.status = PosStatus.OPEN →
      { r with status := PosStatus.CLOSED, exit_ts := some exit_ts,
               exit_price := some exit_price, exit_reason := some reason,
               pnl_pct := some ((row.entry_price - exit_price) / row.entry_price * 100) } ∈
        (SQLiteCache.close_position st sym exit_price reason exit_ts).positions) ∧
    (exit_price < row.entry_price →
      0 < (row.entry_price - exit_price) / row.entry_price * 100) := by
  constructor
  · intro r hr hsym hopen
    unfold SQLiteCache.close_position
    rw [hrow]
    simp only []
    refine List.mem_map.mpr ⟨r, hr, ?_⟩
    simp [hsym, hopen]
  · intro hlt
    have h1 : 0 < row.entry_price - exit_price := by linarith
    have h2 : 0 < (row.entry_price - exit_price) / row.entry_price := div_pos h1 hE
    nlinarith

/-- C8 witness: closing the demo position (entry 1) at exit price 0.9
records `pnl_pct = 10` on the closed row. -/
theorem close_position_records_pnl_witness :
    (latestOpenRow demoOpenCache.positions "BTCUSDT" =
      some ⟨"BTCUSDT", 0, 1, PosStatus.OPEN, some 1, none, none, none, none⟩) ∧
    (0 : ℚ) < 1 ∧
    (⟨"BTCUSDT", 0, 1, PosStatus.CLOSED, some 1, some 50, some (9/10), some "hard_stop",
        some ((1 - 9/10) / 1 * 100)⟩ : PosRow) ∈
      (SQLiteCache.close_position demoOpenCache "BTCUSDT" (9/10) "hard_stop" 50).positions := by
  refine ⟨by decide, by norm_num, ?_⟩
  have h := (close_position_records_pnl demoOpenCache "BTCUSDT" (9/10) "hard_stop" 50
      ⟨"BTCUSDT", 0, 1, PosStatus.OPEN, some 1, none, none, none, none⟩
      (by decide) (by norm_num)).1
      ⟨"BTCUSDT", 0, 1, PosStatus.OPEN, some 1, none, none, none, none⟩
      (by decide) rfl rfl
  exact h

/-- Case analysis of the trailing-stop step: updated best-low, returned
PnL, and exact characterisation of the two exit reasons. -/
theorem trailing_for_short_cases (cfg : TrailCfg) (entry current best_low : ℚ) :
    (ExitManager.trailing_for_short cfg entry current best_low).updated_best_low =
      min best_low current ∧
    (ExitManager.trailing_for_short cfg entry current best_low).pnl_pct =
      (entry - current) / entry * 100 ∧
    ((ExitManager.trailing_for_short cfg entry current best_low).should_exit = true ∧
      (ExitManager.trailing_for_short cfg entry current best_low).reason = "hard_stop" ↔
      (entry - current) / entry * 100 ≤ -cfg.HARD_STOP_LOSS_PCT) ∧
    ((ExitManager.trailing_for_short cfg entry current best_low).should_exit = true ∧
      (ExitManager.trailing_for_short cfg entry current best_low).reason = "trailing_giveback" ↔
      (¬((entry - current) / entry * 100 ≤ -cfg.HARD_STOP_LOSS_PCT) ∧
        cfg.TRAIL_ACTIVATE_PCT ≤ (entry - current) / entry * 100 ∧
        cfg.TRAIL_ACTIVATE_PCT ≤ (entry - min best_low current) / entry * 100 ∧
        cfg.TRAIL_GIVEBACK_PCT ≤ (entry - min best_low current) / entry * 100 -
          (entry - current) / entry * 100)) ∧
    ((ExitManager.trailing_for_short cfg entry current best_low).should_exit = false ↔
      (¬((entry - current) / entry * 100 ≤ -cfg.HARD_STOP_LOSS_PCT) ∧
        ¬(cfg.TRAIL_ACTIVATE_PCT ≤ (entry - current) / entry * 100 ∧
          cfg.TRAIL_ACTIVATE_PCT ≤ (entry - min best_low current) / entry * 100 ∧
          cfg.TRAIL_GIVEBACK_PCT ≤ (entry - min best_low current) / entry * 100 -
            (entry - current) / entry * 100))) := by
  simp only [ExitManager.trailing_for_short]
  split_ifs with h1 h2
  · refine ⟨rfl, rfl, ?_, ?_, ?_⟩ <;> simp [h1]
  · refine ⟨rfl, rfl, ?_, ?_, ?_⟩ <;> simp [h1, h2]
  · refine ⟨rfl, rfl, ?_, ?_, ?_⟩ <;> simp [h1, h2]

/-- `store_signal` never touches the `positions` table. -/
theorem positions_store_signal (st : SQLiteCacheState) (sym : String)
    (score entry_price : ℚ) (reason : String) (ts : ℚ) (dh : Option String)
    (stype : String) :
    (SQLiteCache.store_signal st sym score entry_price reason ts dh stype).positions =
      st.positions := by
  unfold SQLiteCache.store_signal
  split_ifs <;> rfl

/-- `get_open_position` only reads the `positions` table. -/
theorem get_open_position_congr {st st' : SQLiteCacheState} (sym : String)
    (h : st.positions = st'.positions) :
    SQLiteCache.get_open_position st sym = SQLiteCache.get_open_position st' sym := by
  unfold SQLiteCache.get_open_position
  rw [h]

/-- C2: on a price update for a symbol with an OPEN position (entry price
positive, stored best_low non-zero), the exit manager sets `best_low` to
`min(best_low, current)` — so `best_low` is non-increasing — returns
`pnl_pct = (entry − current)/entry × 100`, exits with reason `hard_stop`
exactly when `pnl_pct ≤ −HARD_STOP_LOSS_PCT`, otherwise exits with reason
`trailing_giveback` exactly when `pnl_pct ≥ TRAIL_ACTIVATE_PCT`,
`peak_pnl_pct ≥ TRAIL_ACTIVATE_PCT` and `peak_pnl_pct − pnl_pct ≥
TRAIL_GIVEBACK_PCT` (with `peak_pnl_pct = (entry − best_low)/entry × 100`
over the updated best_low), and otherwise holds; on hold the journal's
open row carries the persisted `min(best_low, current)`, and on exit the
position is closed. -/
theorem check_trailing_behaviour (cfg : TrailCfg) (st : SQLiteCacheState) (sym : String)
    (price now : ℚ) (pos : OpenPos) (b : ℚ)
    (hpos : SQLiteCache.get_open_position st sym = some pos)
    (hbl : pos.best_low = some b) (hb0 : b ≠ 0) (hE : 0 < pos.entry_price) :
    (ExitManager.trailing_for_short cfg pos.entry_price price b).updated_best_low =
      min b price ∧
    min b price ≤ b ∧
    (ExitManager.trailing_for_short cfg pos.entry_price price b).pnl_pct =
      (pos.entry_price - price) / pos.entry_price * 100 ∧
    ((ExitManager.trailing_for_short cfg pos.entry_price price b).should_exit = true ∧
      (ExitManager.trailing_for_short cfg pos.entry_price price b).reason = "hard_stop" ↔
      (pos.entry_price - price) / pos.entry_price * 100 ≤ -cfg.HARD_STOP_LOSS_PCT) ∧
    ((ExitManager.trailing_for_short cfg pos.entry_price price b).should_exit = true ∧
      (ExitManager.trailing_for_short cfg pos.entry_price price b).reason =
        "trailing_giveback" ↔
      (¬((pos.entry_price - price) / pos.entry_price * 100 ≤ -cfg.HARD_STOP_LOSS_PCT) ∧
        cfg.TRAIL_ACTIVATE_PCT ≤ (pos.entry_price - price) / pos.entry_price * 100 ∧
        cfg.TRAIL_ACTIVATE_PCT ≤ (pos.entry_price - min b price) / pos.entry_price * 100 ∧
        cfg.TRAIL_GIVEBACK_PCT ≤ (pos.entry_price - min b price) / pos.entry_price * 100 -
          (pos.entry_price - price) / pos.entry_price * 100)) ∧
    ((ExitManager.trailing_for_short cfg pos.entry_price price b).should_exit = false →
      SQLiteCache.get_open_position (Orchestrator.check_trailing cfg st sym price now) sym =
        some { pos with best_low := some (min b price) }) ∧
    ((ExitManager.trailing_for_short cfg pos.entry_price price b).should_exit = true →
      SQLiteCache.get_open_position (Orchestrator.check_trailing cfg st sym price now) sym =
        none) := by
  obtain ⟨hub, hpnl, hhs, htg, hhold⟩ :=
    trailing_for_short_cases cfg pos.entry_price price b
  refine ⟨hub, min_le_left _ _, hpnl, hhs, htg, ?_, ?_⟩
  · intro hfalse
    unfold Orchestrator.check_trailing
    rw [hpos]
    simp only [hbl]
    rw [if_neg hb0, hfalse]
    simp only [Bool.false_eq_true, if_false, hub]
    by_cases hmin : min b price = b
    · rw [if_neg (fun hc => hc hmin), hpos, hmin]
      obtain ⟨pts, pep, pbl⟩ := pos
      simp only at hbl
      rw [hbl]
    · rw [if_pos hmin, get_open_position_update, hpos]
      rfl
  · intro htrue
    unfold Orchestrator.check_trailing
    rw [hpos]
    simp only [hbl]
    rw [if_neg hb0, htrue]
    simp only [if_true]
    rw [get_open_position_congr sym (positions_store_signal _ _ _ _ _ _ _ _)]
    exact get_open_position_close _ _ _ _ _

/-- C2 witness: the trailing step on the demo open position (entry 1,
best_low 1) at price 0.993 — best_low is updated to the minimum and is
non-increasing. -/
theorem check_trailing_behaviour_witness :
    (SQLiteCache.get_open_position demoOpenCache "BTCUSDT" = some ⟨0, 1, some 1⟩) ∧
    ((1 : ℚ) ≠ 0) ∧ ((0 : ℚ) < 1) ∧
    (ExitManager.trailing_for_short defaultTrailCfg 1 (993/1000) 1).updated_best_low =
      min 1 (993/1000) ∧
    min (1 : ℚ) (993/1000) ≤ 1 := by
  have h := check_trailing_behaviour defaultTrailCfg demoOpenCache "BTCUSDT" (993/1000) 60
    ⟨0, 1, some 1⟩ 1 (by decide) rfl (by norm_num) (by norm_num)
  exact ⟨by decide, by norm_num, by norm_num, h.1, h.2.1⟩

/-- `open_position` never touches the `signals` table. -/
theorem signals_open_position (st : SQLiteCacheState) (sym : String) (price ts : ℚ)
    (bl : Option ℚ) :
    (SQLiteCache.open_position st sym price ts bl).signals = st.signals := by
  unfold SQLiteCache.open_position
  split_ifs <;> rfl

/-- `open_position` never changes the allowlist. -/
theorem allowed_open_position (st : SQLiteCacheState) (sym : String) (price ts : ℚ)
    (bl : Option ℚ) :
    (SQLiteCache.open_position st sym price ts bl).allowed = st.allowed := by
  unfold SQLiteCache.open_position
  split_ifs <;> rfl

/-- `close_position` never touches the `signals` table. -/
theorem signals_close_position (st : SQLiteCacheState) (sym : String) (p : ℚ) (reason : String)
    (ts : ℚ) :
    (SQLiteCache.close_position st sym p reason ts).signals = st.signals := by
  unfold SQLiteCache.close_position
  cases latestOpenRow st.positions sym <;> rfl

/-- A `_check_trailing` pass either leaves the `signals` table unchanged
or prepends one `exit`-typed row (timestamp `now`, null dedup hash). -/
theorem signals_check_trailing (cfg : TrailCfg) (st : SQLiteCacheState) (sym : String)
    (price now : ℚ) :
    (Orchestrator.check_trailing cfg st sym price now).signals = st.signals ∨
    ∃ pnl reason, (Orchestrator.check_trailing cfg st sym price now).signals =
      ⟨now, sym, pnl, price, "exit_" ++ reason, none, "exit"⟩ :: st.signals := by
  unfold Orchestrator.check_trailing
  cases hpos : SQLiteCache.get_open_position st sym with
  | none => exact Or.inl rfl
  | some pos =>
    simp only []
    generalize (match pos.best_low with
      | none => pos.entry_price
      | some b => if b = 0 then pos.entry_price else b : ℚ) = bl
    generalize ExitManager.trailing_for_short cfg pos.entry_price price bl = res
    split_ifs with hB hA1 hA2
    · -- best_low persisted, exit fired
      unfold SQLiteCache.store_signal
      split_ifs with hval
      · exact Or.inr ⟨res.pnl_pct, res.reason,
          by simp [signals_close_position, SQLiteCache.update_best_low]⟩
      · exact Or.inl (by simp [signals_close_position, SQLiteCache.update_best_low])
    · -- best_low unchanged, exit fired
      unfold SQLiteCache.store_signal
      split_ifs with hval
      · exact Or.inr ⟨res.pnl_pct, res.reason, by simp [signals_close_position]⟩
      · exact Or.inl (by simp [signals_close_position])
    · -- best_low persisted, hold
      exact Or.inl rfl
    · -- hold, nothing changed
      exact Or.inl rfl

/-- Invariant carried along every orchestrator trace: all journalled
signal timestamps are bounded by the current time, and the rows are
pairwise separated (cooldown for entries, 900 s for equal dedup hashes). -/
theorem reach_signals_aux {cfg : TrailCfg} {C : ℚ} {ar : Bool} {t : ℚ} {s : OrchState}
    (h : Orchestrator.Reach cfg C ar t s) :
    (∀ r ∈ s.db.signals, r.ts ≤ t) ∧ List.Pairwise (sigOK C) s.db.signals := by
  induction h with
  | init t allowed =>
    exact ⟨fun r hr => absurd hr (List.not_mem_nil r), List.Pairwise.nil⟩
  | @entry t s t' sym score price dh hm hallow hin hcool hded hre ih =>
    obtain ⟨iht, ihp⟩ := ih
    have hold : ∀ r ∈ s.db.signals, r.sym = sym → r.signal_type = "entry" →
        r.ts ≤ t' - C := by
      simpa [SQLiteCache.seen_recent_symbol_signal] using hcool
    have hded' : ∀ r ∈ s.db.signals, r.sym = sym → r.dedup_hash = some dh →
        r.ts ≤ t' - 900 := by
      simpa [SQLiteCache.seen_recent_signal] using hded
    by_cases hval : SQLiteCache.validate_symbol
        (SQLiteCache.open_position s.db sym price t' none) sym = true
    · have hsig : (Orchestrator.do_entry s sym score price dh t').db.signals =
          ⟨t', sym, score, price, "entry", some dh, "entry"⟩ ::
            s.db.signals := by
        unfold Orchestrator.do_entry SQLiteCache.store_signal
        rw [if_pos hval]
        simp [signals_open_position]
      rw [hsig]
      constructor
      · intro r hr
        rcases List.mem_cons.mp hr with hr1 | hr2
        · rw [hr1]
        · exact le_trans (iht r hr2) hm
      · refine List.pairwise_cons.mpr ⟨?_, ihp⟩
        intro b hb
        constructor
        · intro hsym htypea htypeb
          have hble : b.ts ≤ t' - C := hold b hb hsym.symm htypeb
          have hbts : b.ts ≤ t' := le_trans (iht b hb) hm
          have : |(t' : ℚ) - b.ts| = t' - b.ts := abs_of_nonneg (by linarith)
          simp only [SignalRow.ts] at *
          rw [this]
          linarith
        · intro hstr hsym hha hhb
          have hdh : dh = hstr := by
            simpa using hha
          have hble : b.ts ≤ t' - 900 := hded' b hb hsym.symm (by rw [hhb, hdh])
          have hbts : b.ts ≤ t' := le_trans (iht b hb) hm
          have : |(t' : ℚ) - b.ts| = t' - b.ts := abs_of_nonneg (by linarith)
          simp only [SignalRow.ts] at *
          rw [this]
          linarith
    · have hsig : (Orchestrator.do_entry s sym score price dh t').db.signals =
          s.db.signals := by
        unfold Orchestrator.do_entry SQLiteCache.store_signal
        rw [if_neg hval]
        simp [signals_open_position]
      rw [hsig]
      exact ⟨fun r hr => le_trans (iht r hr) hm, ihp⟩
  | @priceTick t s t' sym price hm hre ih =>
    obtain ⟨iht, ihp⟩ := ih
    rcases signals_check_trailing cfg s.db sym price t' with hsig | ⟨pnl, reason, hsig⟩
    · have hsig' : (Orchestrator.do_price_tick cfg s sym price t').db.signals =
          s.db.signals := hsig
      rw [hsig']
      exact ⟨fun r hr => le_trans (iht r hr) hm, ihp⟩
    · have hsig' : (Orchestrator.do_price_tick cfg s sym price t').db.signals =
          ⟨t', sym, pnl, price, "exit_" ++ reason, none, "exit"⟩ :: s.db.signals := hsig
      rw [hsig']
      constructor
      · intro r hr
        rcases List.mem_cons.mp hr with hr1 | hr2
        · rw [hr1]
        · exact le_trans (iht r hr2) hm
      · refine List.pairwise_cons.mpr ⟨?_, ihp⟩
        intro b hb
        constructor
        · intro hsym htypea htypeb
          simp at htypea
        · intro hstr hsym hha hhb
          simp at hha
  | @restart t s t' hm hflag hre ih =>
    obtain ⟨iht, ihp⟩ := ih
    exact ⟨fun r hr => le_trans (iht r hr) hm, ihp⟩

/-- C3: along every orchestrator trace (cooldown window `C`, default
300 s), the journal never holds two `entry`-type signal rows for one
symbol less than `C` seconds apart, nor two rows for one symbol carrying
the same dedup hash less than 900 s apart: the engine writes an entry
signal only when the journal shows no entry-type signal for the symbol
within the cooldown window and the dedup hash is unseen for 900 s. -/
theorem journal_signal_separation (cfg : TrailCfg) (C : ℚ) (ar : Bool) (t : ℚ)
    (s : OrchState) (h : Orchestrator.Reach cfg C ar t s) :
    List.Pairwise (sigOK C) s.db.signals :=
  (reach_signals_aux h).2

/-- C3 witness: a concrete trace with one entry write satisfies the
pairwise separation property. -/
theorem journal_signal_separation_witness :
    Orchestrator.Reach defaultTrailCfg 300 false 0 demoEntryState ∧
    List.Pairwise (sigOK 300) demoEntryState.db.signals := by
  have h1 : Orchestrator.Reach defaultTrailCfg 300 false 0 demoEntryState :=
    Orchestrator.Reach.entry 0 "BTCUSDT" 80 1 "h1" le_rfl (by decide)
      (by decide) (by decide) (by decide)
      (Orchestrator.Reach.init 0 ["BTCUSDT"])
  exact ⟨h1, journal_signal_separation defaultTrailCfg 300 false 0 demoEntryState h1⟩

/-- A row transformer preserving symbol and status preserves the open-row
count. -/
theorem countOpen_map_preserve (f : PosRow → PosRow)
    (hf : ∀ r, (f r).sym = r.sym ∧ (f r).status = r.status)
    (ps : List PosRow) (q : String) :
    countOpenFor (ps.map f) q = countOpenFor ps q := by
  unfold countOpenFor
  rw [← List.countP_eq_length_filter, ← List.countP_eq_length_filter, List.countP_map]
  apply List.countP_congr
  intro r _
  simp only [Function.comp_apply, decide_eq_true_eq, (hf r).1, (hf r).2]

/-- `update_best_low` preserves every open-row count. -/
theorem countOpen_update (st : SQLiteCacheState) (sym : String) (v : ℚ) (q : String) :
    countOpenFor (SQLiteCache.update_best_low st sym v).positions q =
      countOpenFor st.positions q := by
  unfold SQLiteCache.update_best_low
  apply countOpen_map_preserve
  intro r
  by_cases h : r.sym = sym ∧ r.status = PosStatus.OPEN <;> simp [h]

/-- After `close_position`, the symbol has no open row. -/
theorem countOpen_close_self (st : SQLiteCacheState) (sym : String) (p : ℚ)
    (reason : String) (ts : ℚ) :
    countOpenFor (SQLiteCache.close_position st sym p reason ts).positions sym = 0 := by
  unfold SQLiteCache.close_position
  cases hrow : latestOpenRow st.positions sym with
  | none =>
    unfold countOpenFor
    rw [(latestOpenRow_eq_none_iff _ _).mp hrow]
    rfl
  | some row =>
    unfold countOpenFor
    simp only []
    rw [filter_close_nil]
    rfl

/-- `close_position` leaves open-row counts of other symbols unchanged. -/
theorem countOpen_close_other (st : SQLiteCacheState) (sym : String) (p : ℚ)
    (reason : String) (ts : ℚ) (q : String) (hq : q ≠ sym) :
    countOpenFor (SQLiteCache.close_position st sym p reason ts).positions q =
      countOpenFor st.positions q := by
  unfold SQLiteCache.close_position
  cases hrow : latestOpenRow st.positions sym with
  | none => rfl
  | some row =>
    simp only []
    unfold countOpenFor
    rw [← List.countP_eq_length_filter, ← List.countP_eq_length_filter, List.countP_map]
    apply List.countP_congr
    intro r _
    by_cases hc : r.sym = sym ∧ r.status = PosStatus.OPEN
    · have hnotq : ¬(r.sym = q) := fun hcon => hq (hcon ▸ hc.1)
      have hq2 : ¬(sym = q) := fun hcon => hq hcon.symm
      simp [Function.comp_apply, hc, hnotq, hq2]
    · simp [Function.comp_apply, hc]

/-- Effect of `open_position` on open-row counts: one new open row for the
symbol when it passes the allowlist, nothing otherwise. -/
theorem countOpen_open (st : SQLiteCacheState) (sym : String) (price ts : ℚ)
    (bl : Option ℚ) (q : String) :
    countOpenFor (SQLiteCache.open_position st sym price ts bl).positions q =
      countOpenFor st.positions q +
        (if SQLiteCache.validate_symbol st sym = true ∧ q = sym then 1 else 0) := by
  unfold SQLiteCache.open_position
  by_cases hval : SQLiteCache.validate_symbol st sym = true
  · rw [if_pos hval]
    unfold countOpenFor
    rw [List.filter_cons]
    by_cases hq : q = sym
    · have e : decide ((⟨sym, ts, price, PosStatus.OPEN, some (bl.getD price),
          none, none, none, none⟩ : PosRow).sym = q ∧
          (⟨sym, ts, price, PosStatus.OPEN, some (bl.getD price),
          none, none, none, none⟩ : PosRow).status = PosStatus.OPEN) = true :=
        decide_eq_true ⟨hq.symm, rfl⟩
      rw [e]
      simp [hval, hq, Nat.add_comm]
    · have e : decide ((⟨sym, ts, price, PosStatus.OPEN, some (bl.getD price),
          none, none, none, none⟩ : PosRow).sym = q ∧
          (⟨sym, ts, price, PosStatus.OPEN, some (bl.getD price),
          none, none, none, none⟩ : PosRow).status = PosStatus.OPEN) = false :=
        decide_eq_false (fun hcon => hq hcon.1.symm)
      rw [e]
      simp [hq]
  · rw [if_neg hval]
    simp [hval]

/-- A `_check_trailing` pass never increases any open-row count. -/
theorem countOpen_check_trailing_le (cfg : TrailCfg) (st : SQLiteCacheState) (sym : String)
    (price now : ℚ) (q : String) :
    countOpenFor (Orchestrator.check_trailing cfg st sym price now).positions q ≤
      countOpenFor st.positions q := by
  unfold Orchestrator.check_trailing
  cases hpos : SQLiteCache.get_open_position st sym with
  | none => exact le_rfl
  | some pos =>
    simp only []
    generalize (match pos.best_low with
      | none => pos.entry_price
      | some b => if b = 0 then pos.entry_price else b : ℚ) = bl
    generalize ExitManager.trailing_for_short cfg pos.entry_price price bl = res
    split_ifs with hB hA1 hA2
    · rw [show ∀ st2 : SQLiteCacheState, (SQLiteCache.store_signal st2 sym res.pnl_pct price
          ("exit_" ++ res.reason) now none "exit").positions = st2.positions from
        fun st2 => positions_store_signal st2 sym res.pnl_pct price _ now none "exit"]
      by_cases hq : q = sym
      · rw [hq, countOpen_close_self]
        exact Nat.zero_le _
      · rw [countOpen_close_other _ _ _ _ _ _ hq, countOpen_update]
    · rw [show ∀ st2 : SQLiteCacheState, (SQLiteCache.store_signal st2 sym res.pnl_pct price
          ("exit_" ++ res.reason) now none "exit").positions = st2.positions from
        fun st2 => positions_store_signal st2 sym res.pnl_pct price _ now none "exit"]
      by_cases hq : q = sym
      · rw [hq, countOpen_close_self]
        exact Nat.zero_le _
      · rw [countOpen_close_other _ _ _ _ _ _ hq]
    · rw [countOpen_update]
    · exact le_rfl

/-- When the trailing step fires, the symbol ends with no open row. -/
theorem countOpen_check_trailing_fired (cfg : TrailCfg) (st : SQLiteCacheState)
    (sym : String) (price now : ℚ)
    (hf : Orchestrator.trailing_fired cfg st sym price = true) :
    countOpenFor (Orchestrator.check_trailing cfg st sym price now).positions sym = 0 := by
  unfold Orchestrator.trailing_fired at hf
  unfold Orchestrator.check_trailing
  cases hpos : SQLiteCache.get_open_position st sym with
  | none =>
    rw [hpos] at hf
    exact absurd hf (by simp)
  | some pos =>
    rw [hpos] at hf
    simp only [] at hf ⊢
    rw [if_pos hf]
    rw [show ∀ st2 : SQLiteCacheState, (SQLiteCache.store_signal st2 sym _ price
        ("exit_" ++ _) now none "exit").positions = st2.positions from
      fun st2 => positions_store_signal st2 sym _ price _ now none "exit"]
    exact countOpen_close_self _ _ _ _ _

/-- Invariant of restart-free orchestrator traces: at most one open row
per symbol, and symbols outside the in-memory `in_position` set have no
open row. -/
theorem reach_positions_aux {cfg : TrailCfg} {C : ℚ} {t : ℚ} {s : OrchState}
    (h : Orchestrator.Reach cfg C false t s) :
    ∀ q : String, countOpenFor s.db.positions q ≤ 1 ∧
      (q ∉ s.in_position → countOpenFor s.db.positions q = 0) := by
  induction h with
  | init t allowed =>
    intro q
    exact ⟨by simp [SQLiteCacheState.empty, countOpenFor], fun _ => by
      simp [SQLiteCacheState.empty, countOpenFor]⟩
  | @entry t s t' sym score price dh hm hallow hin hcool hded hre ih =>
    intro q
    have hpos_eq : (Orchestrator.do_entry s sym score price dh t').db.positions =
        (SQLiteCache.open_position s.db sym price t' none).positions :=
      positions_store_signal _ _ _ _ _ _ _ _
    have hin_eq : (Orchestrator.do_entry s sym score price dh t').in_position =
        sym :: s.in_position := rfl
    rw [hpos_eq, hin_eq, countOpen_open]
    by_cases hq : q = sym
    · subst hq
      have h0 : countOpenFor s.db.positions q = 0 := (ih q).2 hin
      constructor
      · rw [h0]
        split_ifs <;> simp
      · intro hnot
        exact absurd (List.mem_cons_self q s.in_position) hnot
    · rw [if_neg (fun hc => hq hc.2)]
      constructor
      · simpa using (ih q).1
      · intro hnot
        have : q ∉ s.in_position := fun hmem => hnot (List.mem_cons_of_mem _ hmem)
        simpa using (ih q).2 this
  | @priceTick t s t' sym price hm hre ih =>
    intro q
    have hdb : (Orchestrator.do_price_tick cfg s sym price t').db =
        Orchestrator.check_trailing cfg s.db sym price t' := rfl
    rw [hdb]
    constructor
    · exact le_trans (countOpen_check_trailing_le cfg s.db sym price t' q) (ih q).1
    · intro hnot
      by_cases hfired : Orchestrator.trailing_fired cfg s.db sym price = true
      · by_cases hq : q = sym
        · subst hq
          exact countOpen_check_trailing_fired cfg s.db q price t' hfired
        · have hin2 : (Orchestrator.do_price_tick cfg s sym price t').in_position =
              s.in_position.erase sym := by
            unfold Orchestrator.do_price_tick
            rw [if_pos hfired]
          rw [hin2] at hnot
          have hq' : q ∉ s.in_position := fun hmem =>
            hnot ((List.mem_erase_of_ne hq).mpr hmem)
          have h0 := (ih q).2 hq'
          exact Nat.le_zero.mp (le_trans
            (countOpen_check_trailing_le cfg s.db sym price t' q) (le_of_eq h0))
      · have hin2 : (Orchestrator.do_price_tick cfg s sym price t').in_position =
            s.in_position := by
          unfold Orchestrator.do_price_tick
          rw [if_neg hfired]
        rw [hin2] at hnot
        have h0 := (ih q).2 hnot
        exact Nat.le_zero.mp (le_trans
          (countOpen_check_trailing_le cfg s.db sym price t' q) (le_of_eq h0))
  | @restart t s t' hm hflag hre ih =>
    exact absurd hflag (by simp)

/-- C5 (amended): within a single orchestrator process run started on an
empty journal (no restart), every reachable state has at most one OPEN
position row per symbol — the in-memory `in_position` set is the guard. -/
theorem open_position_unique_within_run (cfg : TrailCfg) (C t : ℚ) (s : OrchState)
    (h : Orchestrator.Reach cfg C false t s) (sym : String) :
    countOpenFor s.db.positions sym ≤ 1 :=
  (reach_positions_aux h sym).1

/-- C5 witness: after one concrete entry pass the journal holds exactly
one open `BTCUSDT` row, within the bound. -/
theorem open_position_unique_within_run_witness :
    Orchestrator.Reach defaultTrailCfg 300 false 0 demoEntryState ∧
    countOpenFor demoEntryState.db.positions "BTCUSDT" ≤ 1 := by
  have h1 : Orchestrator.Reach defaultTrailCfg 300 false 0 demoEntryState :=
    Orchestrator.Reach.entry 0 "BTCUSDT" 80 1 "h1" le_rfl (by decide)
      (by decide) (by decide) (by decide)
      (Orchestrator.Reach.init 0 ["BTCUSDT"])
  exact ⟨h1, open_position_unique_within_run defaultTrailCfg 300 0 demoEntryState h1 "BTCUSDT"⟩

/-- C5 counterexample: with a process restart between two entry passes
(the journal survives, the in-memory `in_position` set is cleared, the
300 s cooldown has elapsed and the dedup hash differs), the orchestrator
reaches a state whose journal holds TWO `OPEN` rows for `BTCUSDT`, so "at
most one OPEN position per symbol at every instant, including across a
restart" is false on the code. -/
theorem open_position_unique_fails_across_restart :
    Orchestrator.Reach defaultTrailCfg 300 true 400 demoDoubleOpenState ∧
    countOpenFor demoDoubleOpenState.db.positions "BTCUSDT" = 2 := by
  have h1 : Orchestrator.Reach defaultTrailCfg 300 true 0 demoEntryState :=
    Orchestrator.Reach.entry 0 "BTCUSDT" 80 1 "h1" le_rfl (by decide)
      (by decide) (by decide) (by decide)
      (Orchestrator.Reach.init 0 ["BTCUSDT"])
  have h2 : Orchestrator.Reach defaultTrailCfg 300 true 350 demoRestartState :=
    Orchestrator.Reach.restart 350 (by norm_num) rfl h1
  have hsig : demoRestartState.db.signals =
      [⟨0, "BTCUSDT", 80, 1, "entry", some "h1", "entry"⟩] := by decide
  have hcool : SQLiteCache.seen_recent_symbol_signal demoRestartState.db
      "BTCUSDT" 300 "entry" 400 = false := by
    unfold SQLiteCache.seen_recent_symbol_signal
    rw [hsig]
    simp only [List.any_cons, List.any_nil, Bool.or_false, decide_eq_false_iff_not]
    intro hcon
    have := hcon.2.2
    norm_num at this
  have hded2 : SQLiteCache.seen_recent_signal demoRestartState.db
      "BTCUSDT" "h2" 900 400 = false := by
    unfold SQLiteCache.seen_recent_signal
    rw [hsig]
    simp only [List.any_cons, List.any_nil, Bool.or_false, decide_eq_false_iff_not]
    intro hcon
    simp at hcon
  have h3 : Orchestrator.Reach defaultTrailCfg 300 true 400 demoDoubleOpenState :=
    Orchestrator.Reach.entry 400 "BTCUSDT" 80 1 "h2" (by norm_num) (by decide)
      (by decide) hcool hded2 h2
  exact ⟨h3, by decide⟩

/-- `DataHub._avg` over a projected column equals the spec-side mean of
the non-null values. -/
theorem avg_map_eq_meanQ (f : VenueMetric → Option ℚ) (l : List VenueMetric) :
    DataHub.avg (l.map f) = meanQ (l.filterMap f) := by
  unfold DataHub.avg meanQ
  rw [List.filterMap_map]
  simp only [Function.comp_def, id_eq, List.length_eq_zero]

/-- `DataHub._avg` over already-unwrapped values equals the spec-side
mean. -/
theorem avg_map_some_eq_meanQ (xs : List ℚ) :
    DataHub.avg (xs.map some) = meanQ xs := by
  unfold DataHub.avg meanQ
  rw [List.filterMap_map]
  simp only [Function.comp_def, id_eq, List.filterMap_some, List.length_eq_zero]

/-- C6: the hub's unified-tick emission agrees field-for-field with the
specification's description — price, spread, bid/ask totals are the
arithmetic mean of the non-null per-venue values over exactly the venues
whose metric is within 180 s of now; imbalance is the mean of
`(ask − bid)/(ask + bid)` over venues with positive depth; funding and OI
are averaged over venues whose latest entry is within 7200 s; `mark`
equals `price`; and when no venue metric is fresh nothing is emitted. -/
theorem emit_unified_matches_specification (st : HubState) (sym : String) (now : ℚ) :
    DataHub.emit_unified st sym now = DataHub.emit_unified_specification st sym now := by
  unfold DataHub.emit_unified DataHub.emit_unified_specification freshVenueMetrics
  by_cases hl : st.metrics.filter (fun m => m.sym = sym ∧ now - m.ts ≤ 180) = []
  · rw [hl]
    simp
  · rw [if_neg (fun hc => hl (List.isEmpty_iff.mp hc)), if_neg hl]
    simp only [avg_map_eq_meanQ, avg_map_some_eq_meanQ]

/-- `str.replace` is the identity when the pattern's first character does
not occur in the string. -/
theorem pyReplace_of_head_not_mem {p0 : ℕ} {ps rep l : List ℕ} (hp : p0 ∉ l) :
    pyReplace (p0 :: ps) rep l = l := by
  induction l with
  | nil => rw [pyReplace]
  | cons c t ih =>
    have hc : c ≠ p0 := fun hcon => hp (hcon ▸ List.mem_cons_self c t)
    have hpre : ¬((p0 :: ps) ≠ [] ∧ (p0 :: ps).isPrefixOf (c :: t) = true) := by
      intro hcon
      have h2 := hcon.2
      simp [List.isPrefixOf] at h2
      exact hc h2.1.symm
    rw [pyReplace, dif_neg hpre, ih (fun hmem => hp (List.mem_cons_of_mem _ hmem))]

/-- Replacing `"_usdt"` by the empty string strips exactly the appended
suffix when the body contains no underscore. -/
theorem pyReplace_append_self {l : List ℕ} (hl : cpUnderscore ∉ l) :
    pyReplace cpLbankTail [] (l ++ cpLbankTail) = l := by
  induction l with
  | nil =>
    rw [List.nil_append]
    show pyReplace cpLbankTail [] (cpUnderscore :: cpUsdtLower) = []
    rw [pyReplace, dif_pos (by constructor <;> decide)]
    show pyReplace cpLbankTail []
      ((cpUnderscore :: cpUsdtLower).drop cpLbankTail.length) = []
    rw [show (cpUnderscore :: cpUsdtLower).drop cpLbankTail.length = [] from by decide]
    rw [pyReplace]
  | cons c t ih =>
    have hc : c ≠ cpUnderscore := fun hcon => hl (hcon ▸ List.mem_cons_self c t)
    have hpre : ¬(cpLbankTail ≠ [] ∧
        cpLbankTail.isPrefixOf (c :: (t ++ cpLbankTail)) = true) := by
      intro hcon
      have h2 := hcon.2
      rw [show cpLbankTail = cpUnderscore :: cpUsdtLower from rfl] at h2
      simp [List.isPrefixOf] at h2
      exact hc h2.1.symm
    rw [List.cons_append, pyReplace, dif_neg hpre,
      ih (fun hmem => hl (List.mem_cons_of_mem _ hmem))]

/-- Lowercasing then uppercasing is the identity on a code point that is
not a lowercase ASCII letter. -/
theorem upperCP_lowerCP (c : ℕ) (h : ¬(97 ≤ c ∧ c ≤ 122)) :
    upperCP (lowerCP c) = c := by
  unfold lowerCP upperCP
  split_ifs <;> omega

/-- C10: translating a canonical symbol (uppercase, ending in `USDT`,
containing neither underscore nor slash) to the LBank local form and
canonicalizing it back is the identity:
`DataHub._canon("lbank", canon_to_lbank(s)) = s`. -/
theorem canon_lbank_roundtrip (s base : List ℕ)
    (hs : s = base ++ cpUSDT)
    (hund : cpUnderscore ∉ s)
    (hsl : cpSlash ∉ s)
    (hupper : ∀ c ∈ s, ¬(97 ≤ c ∧ c ≤ 122)) :
    DataHub.canon cpLbank (canon_to_lbank s) = s := by
  subst hs
  have hsuf : cpUSDT.isSuffixOf (base ++ cpUSDT) = true := by
    rw [List.isSuffixOf_iff_suffix]
    exact List.suffix_append base cpUSDT
  unfold canon_to_lbank
  rw [if_pos hsuf]
  have htake : (base ++ cpUSDT).take ((base ++ cpUSDT).length - 4) = base := by
    have hlen : (base ++ cpUSDT).length - 4 = base.length := by
      simp [cpUSDT]
    rw [hlen, List.take_left]
  rw [htake]
  unfold DataHub.canon
  rw [if_pos rfl]
  have hbase_und : cpUnderscore ∉ base := fun hmem => hund (List.mem_append_left _ hmem)
  have hl95 : cpUnderscore ∉ strLower base := by
    intro hmem
    obtain ⟨c, hc, hceq⟩ := List.mem_map.mp hmem
    unfold lowerCP at hceq
    split_ifs at hceq with hc2
    · unfold cpUnderscore at hceq
      omega
    · exact hbase_und (hceq ▸ hc)
  rw [pyReplace_append_self hl95, pyReplace_of_head_not_mem hl95]
  have hup : strUpper (strLower base) = base := by
    unfold strUpper strLower
    rw [List.map_map]
    have hpt : ∀ c ∈ base, (upperCP ∘ lowerCP) c = id c := by
      intro c hc
      exact upperCP_lowerCP c (hupper c (List.mem_append_left _ hc))
    rw [List.map_congr_left hpt, List.map_id]
  rw [hup]

/-- C10 witness: the roundtrip at the concrete canonical symbol
`"BTCUSDT"` (code points `[66, 84, 67, 85, 83, 68, 84]`). -/
theorem canon_lbank_roundtrip_witness :
    (([66, 84, 67, 85, 83, 68, 84] : List ℕ) = [66, 84, 67] ++ cpUSDT) ∧
    cpUnderscore ∉ ([66, 84, 67, 85, 83, 68, 84] : List ℕ) ∧
    cpSlash ∉ ([66, 84, 67, 85, 83, 68, 84] : List ℕ) ∧
    (∀ c ∈ ([66, 84, 67, 85, 83, 68, 84] : List ℕ), ¬(97 ≤ c ∧ c ≤ 122)) ∧
    DataHub.canon cpLbank (canon_to_lbank [66, 84, 67, 85, 83, 68, 84]) =
      [66, 84, 67, 85, 83, 68, 84] := by
  refine ⟨by decide, by decide, by decide, by decide, ?_⟩
  exact canon_lbank_roundtrip _ [66, 84, 67] (by decide) (by decide) (by decide) (by decide)
